import Mathlib

/-
Verification of the toronto2.0 provision segmentation and search engine.

This file gives a shallow embedding, in Lean 4, of the code under scrutiny:
the SQLite-backed search module (codes-db.js: searchProvisions, fallbackSearch,
bulkInsert, isIngested, logIngestion), the PDF segmentation pipeline
(ingest-codes.js: extractAndChunk, chunkBySize, extractKeywords), the ingestion
coordinator loop (ingest-codes.js: ingestMunicipalCode and friends), and the
query-term expansion layer (server.js: extractSearchTerms).

Modelling conventions:
  * JavaScript strings are modelled as Lean String / List Char; .length is the
    character count (the sources only ever exercise these with ASCII text).
  * The regular-expression character classes \s and \w are modelled by their
    ASCII members, which is what every pattern in the sources matches against.
  * SQLite rows are Lean structures; NULLable columns are Option String.
  * The FTS5 engine itself (the MATCH operator, porter stemming, bm25 rank) is
    external to the repository; it is abstracted as an FtsEngine parameter with
    a rejection predicate (FTS5 throwing on a malformed MATCH query), a row
    match predicate and a rank.  Everything the repository builds on top of it
    (query cleaning, SQL assembly, the LIKE fallback, filters, LIMIT) is
    translated from the source.
  * SQLite LIKE is ASCII case-insensitive substring/wildcard matching; the SQL
    operator precedence AND-binds-tighter-than-OR is modelled exactly as the
    generated SQL text parses.
-/

/-! ### Character classes (ASCII fragments of the JS regex classes) -/

/-- ASCII members of the JS regex class backslash-s (whitespace). -/
def isWsChar (c : Char) : Bool :=
  c == ' ' || c == '\t' || c == '\n' || c == '\r' || c == '\x0b' || c == '\x0c'

/-- The JS regex class backslash-w: ASCII letters, digits and underscore. -/
def isWordChar (c : Char) : Bool :=
  c.isAlphanum || c == '_'

/-! ### List-of-characters utilities shared by the embedded functions -/

/-- Boolean test that `pre` is an initial run of `l`. -/
def startsWithL : List Char → List Char → Bool
  | _, [] => true
  | [], _ :: _ => false
  | a :: as, b :: bs => a == b && startsWithL as bs

/-- Boolean test that `needle` occurs contiguously somewhere in `hay`. -/
def containsL : List Char → List Char → Bool
  | [], needle => needle.isEmpty
  | hay@(_ :: t), needle => startsWithL hay needle || containsL t needle

/-- JS String.prototype.trim (whitespace stripped from both ends). -/
def jsTrim (l : List Char) : List Char :=
  ((l.dropWhile isWsChar).reverse.dropWhile isWsChar).reverse

/-- Accumulator worker for `wsSplit`. -/
def wsSplitAux : List Char → List Char → List (List Char)
  | [], acc => if acc.isEmpty then [] else [acc.reverse]
  | c :: rest, acc =>
    if isWsChar c then
      if acc.isEmpty then wsSplitAux rest []
      else acc.reverse :: wsSplitAux rest []
    else wsSplitAux rest (c :: acc)

/-- JS `.split(/\s+/)` as used in the sources.  The JS call can produce one
leading empty token (leading whitespace or empty input); every call site
immediately filters tokens by `length > 2`, so empty tokens are dropped here
once and for all, which yields the same filtered token list. -/
def wsSplit (s : List Char) : List (List Char) :=
  wsSplitAux s []

/-- Join character-list tokens with a separator (JS Array.prototype.join). -/
def joinWith (sep : List Char) : List (List Char) → List Char
  | [] => []
  | [x] => x
  | x :: y :: xs => x ++ (sep ++ joinWith sep (y :: xs))

/-! ### SQLite LIKE -/

/-- SQLite LIKE pattern matching: `%` matches any (possibly empty) run — the
rest of the pattern must match some suffix of the string — `_` matches any
one character, and other characters match ASCII case-insensitively (SQLite's
default). -/
def likeMatchL : List Char → List Char → Bool
  | [], s => s.isEmpty
  | '%' :: ps, s => s.tails.any fun t => likeMatchL ps t
  | '_' :: _, [] => false
  | '_' :: ps, _ :: s' => likeMatchL ps s'
  | _ :: _, [] => false
  | p :: ps, c :: s' => (p.toLower == c.toLower) && likeMatchL ps s'

/-- The SQL expression `field LIKE '%' || t || '%'` on a non-NULL field. -/
def likeContains (t : List Char) (field : List Char) : Bool :=
  likeMatchL ('%' :: (t ++ ['%'])) field

/-- The same LIKE on a NULLable column: `NULL LIKE p` is NULL, hence not a
match. -/
def likeOpt (t : List Char) : Option String → Bool
  | some f => likeContains t f.data
  | none => false

/-! ### The provisions table (codes-db.js initSchema) -/

/-- One row of the `provisions` table.  `source` and `content` are declared
NOT NULL in the schema; every other text column is NULLable. -/
structure Row where
  source : String
  chapter : Option String
  chapter_title : Option String
  «section» : Option String
  section_title : Option String
  content : String
  summary : Option String
  pdf_url : Option String
  keywords : Option String
deriving DecidableEq, Repr

/-! ### The abstract FTS5 engine -/

/-- The parts of SQLite FTS5 that are external to the repository: whether a
MATCH query string is rejected as malformed (FTS5 throws), which rows match
it, and the bm25 `rank` used by `ORDER BY rank` (smaller is better). -/
structure FtsEngine where
  rejects : String → Bool
  matchesQ : String → Row → Bool
  rank : String → Row → Int

/-! ### searchProvisions (codes-db.js lines 97-139) -/

/-- The cleaning pipeline of searchProvisions applied to the raw query:
replace every character outside backslash-w / backslash-s by a space, trim,
split on whitespace, keep tokens longer than 2 characters. -/
def cleanTerms (q : String) : List (List Char) :=
  (wsSplit (q.data.map fun c => if isWordChar c || isWsChar c then c else ' ')).filter
    fun w => 2 < w.length

/-- One cleaned term wrapped in double quotes, as searchProvisions does. -/
def quoteTerm (w : List Char) : List Char :=
  '"' :: (w ++ ['"'])

/-- The MATCH string searchProvisions hands to FTS5: quoted cleaned terms
joined with " OR ". -/
def cleanQueryStr (q : String) : String :=
  ⟨joinWith " OR ".data ((cleanTerms q).map quoteTerm)⟩

/-- The SQL condition `p.source = ?` appended when a source filter is given. -/
def srcOk (src : Option String) (p : Row) : Bool :=
  match src with
  | none => true
  | some s => p.source == s

/-- Insertion step for `rankSort`. -/
def rankSortInsert (cq : String) (E : FtsEngine) (p : Row) : List Row → List Row
  | [] => [p]
  | r :: rs => if E.rank cq p ≤ E.rank cq r then p :: r :: rs else r :: rankSortInsert cq E p rs

/-- The SQL `ORDER BY rank` (ascending; ties in unspecified order, as in SQLite). -/
def rankSort (cq : String) (E : FtsEngine) : List Row → List Row
  | [] => []
  | p :: ps => rankSortInsert cq E p (rankSort cq E ps)

/-- The ranked SQL query of searchProvisions: rows of the store matching the
FTS query, optionally restricted to one source, ordered by rank, truncated to
`limit`; an `Except.error` models FTS5 throwing on a malformed query. -/
def ftsQuery (E : FtsEngine) (store : List Row) (cq : String) (limit : Nat)
    (src : Option String) : Except String (List Row) :=
  if E.rejects cq then .error "fts5 syntax error"
  else .ok ((rankSort cq E (store.filter fun p => E.matchesQ cq p && srcOk src p)).take limit)

/-- The terms of fallbackSearch: the RAW query split on whitespace, tokens
longer than 2 characters kept (no punctuation stripping, unlike `cleanTerms`). -/
def rawTerms (q : String) : List (List Char) :=
  (wsSplit q.data).filter fun w => 2 < w.length

/-- One term's condition in fallbackSearch:
`(p.content LIKE ? OR p.chapter_title LIKE ? OR p.section_title LIKE ?)`. -/
def termCond (t : List Char) (p : Row) : Bool :=
  likeContains t p.content.data || likeOpt t p.chapter_title || likeOpt t p.section_title

/-- The WHERE clause fallbackSearch assembles.  The generated SQL text is
`c1 OR c2 OR ... OR cn` followed, when a source filter is present, by
`AND p.source = ?`; SQL's AND binds tighter than OR, so the source test
attaches to the LAST term condition only. -/
def fallbackWhere (terms : List (List Char)) (src : Option String) (p : Row) : Bool :=
  match src with
  | none => terms.any fun t => termCond t p
  | some s =>
    (terms.dropLast.any fun t => termCond t p) ||
      (match terms.getLast? with
       | some t => termCond t p && p.source == s
       | none => false)

/-- fallbackSearch (codes-db.js lines 144-161): LIKE-based scan used when the
FTS engine throws. -/
def fallbackSearch (store : List Row) (query : String) (limit : Nat)
    (src : Option String) : List Row :=
  let terms := rawTerms query
  if terms.isEmpty then []
  else (store.filter (fallbackWhere terms src)).take limit

/-- searchProvisions (codes-db.js lines 97-139).  An `Except.error` result
would model an exception escaping to the caller; the try/catch around the
ranked query is translated by the match on `ftsQuery`. -/
def searchProvisions (E : FtsEngine) (store : List Row) (query : String)
    (limit : Nat) (src : Option String) : Except String (List Row) :=
  let cq := cleanQueryStr query
  if cq = "" then .ok []
  else
    match ftsQuery E store cq limit src with
    | .ok rows => .ok rows
    | .error _ => .ok (fallbackSearch store query limit src)

/-- Modelled from the spec: the fallback behaviour the specification DESCRIBES
(for comparison with the implemented `fallbackSearch`): substring matching
across the SAME fields as the ranked path (chapter_title, section_title,
content, summary, keywords), with the SAME term list as the ranked path,
AND-combined, source filter applied to every row, up to `limit` matches. -/
def likeAnyFtsField (t : List Char) (p : Row) : Bool :=
  likeOpt t p.chapter_title || likeOpt t p.section_title || likeContains t p.content.data ||
    likeOpt t p.summary || likeOpt t p.keywords

/-- Modelled from the spec: see `likeAnyFtsField`.  This is the claim's
description of the fallback, not the code's. -/
def fallbackSearchSpec (store : List Row) (query : String) (limit : Nat)
    (src : Option String) : List Row :=
  let terms := cleanTerms query
  if terms.isEmpty then []
  else (store.filter fun p => (terms.all fun t => likeAnyFtsField t p) && srcOk src p).take limit

/-! ### Segmentation patterns (ingest-codes.js extractAndChunk, lines 384-393)

Each JS pattern is a zero-width lookahead, so String.split cuts the text at
every interior position where the lookahead matches, keeping the boundary with
the following segment.  Each lookahead is modelled as a Boolean predicate on
the suffix starting at the candidate position.  All four regexes are
deterministic (each quantified class is disjoint from what follows it), so
greedy scanning without backtracking is exact. -/

/-- Consume one-or-more ASCII digits; `some rest` on success. -/
def eatDigits1 (cs : List Char) : Option (List Char) :=
  match cs with
  | c :: rest => if c.isDigit then some (rest.dropWhile Char.isDigit) else none
  | [] => none

/-- Lookahead for the section-symbol pattern: the section sign, optional
whitespace, digits, a hyphen or en dash, digits. -/
def patSecSym (cs : List Char) : Bool :=
  match cs with
  | '§' :: r =>
    match eatDigits1 (r.dropWhile isWsChar) with
    | some (c :: r3) => (c == '-' || c == '–') && (eatDigits1 r3).isSome
    | _ => false
  | _ => false

/-- Roman-numeral letters of the ARTICLE pattern, either case (the regex has
the i flag). -/
def isRomanChar (c : Char) : Bool :=
  c == 'I' || c == 'V' || c == 'X' || c == 'L' || c == 'C' ||
    c == 'i' || c == 'v' || c == 'x' || c == 'l' || c == 'c'

/-- Case-insensitive literal match at the head of `cs`. -/
def startsWithCI : List Char → List Char → Bool
  | _, [] => true
  | [], _ :: _ => false
  | a :: as, b :: bs => a.toLower == b.toLower && startsWithCI as bs

/-- Lookahead for `ARTICLE` followed by whitespace and Roman numerals
(case-insensitive). -/
def patArticle (cs : List Char) : Bool :=
  startsWithCI cs "ARTICLE".data &&
    (match cs.drop 7 with
     | c :: rest =>
       isWsChar c &&
         (match rest.dropWhile isWsChar with
          | d :: _ => isRomanChar d
          | [] => false)
     | [] => false)

/-- Lookahead for a three-level dotted numeric path `d+.d+.d+`. -/
def patDotted (cs : List Char) : Bool :=
  match eatDigits1 cs with
  | some ('.' :: r1) =>
    match eatDigits1 r1 with
    | some ('.' :: r2) => (eatDigits1 r2).isSome
    | _ => false
  | _ => false

/-- Lookahead for a newline, optional whitespace, a parenthesized number,
whitespace, then an ASCII capital. -/
def patParen (cs : List Char) : Bool :=
  match cs with
  | '\n' :: r =>
    match r.dropWhile isWsChar with
    | '(' :: r2 =>
      match eatDigits1 r2 with
      | some (')' :: r3) =>
        match r3 with
        | c :: r4 =>
          isWsChar c &&
            (match r4.dropWhile isWsChar with
             | d :: _ => 'A' ≤ d && d ≤ 'Z'
             | [] => false)
        | [] => false
      | _ => false
    | _ => false
  | _ => false

/-- The ranked boundary patterns, in source order. -/
inductive SectionPattern where
  | secSym
  | article
  | dotted
  | paren
deriving DecidableEq, Repr

/-- The lookahead predicate of each pattern. -/
def SectionPattern.lookahead : SectionPattern → List Char → Bool
  | .secSym => patSecSym
  | .article => patArticle
  | .dotted => patDotted
  | .paren => patParen

/-- The `sectionPatterns` array of extractAndChunk, in source order. -/
def sectionPatterns : List SectionPattern :=
  [.secSym, .article, .dotted, .paren]

/-- Interior positions where the zero-width lookahead matches: per the
ECMAScript split algorithm an empty separator match at the start of the
current piece is skipped, so split points are exactly the positions
`0 < i < length` at which the lookahead matches. -/
def splitPositions (pat : List Char → Bool) (text : List Char) : List Nat :=
  (List.range text.length).filter fun i => decide (0 < i) && pat (text.drop i)

/-- JS `text.split(lookaheadPattern)`: cut the text at every split position. -/
def splitLookahead (pat : List Char → Bool) (text : List Char) : List (List Char) :=
  let ps := splitPositions pat text
  List.zipWith (fun a b => (text.drop a).take (b - a)) (0 :: ps) (ps ++ [text.length])

/-- One pattern's `text.split(pattern).filter(s => s.trim().length > 30)`. -/
def validSplits (p : SectionPattern) (text : List Char) : List (List Char) :=
  (splitLookahead p.lookahead text).filter fun s => 30 < (jsTrim s).length

/-- The count of valid segments a pattern yields on the text. -/
def validCount (p : SectionPattern) (text : List Char) : Nat :=
  (validSplits p text).length

/-- The pattern-selection loop of extractAndChunk (lines 395-403): start from
the whole text, and adopt a pattern's split when it yields strictly more
segments than the best so far and fewer than 200. -/
def chooseSections (text : List Char) : List (List Char) :=
  sectionPatterns.foldl
    (fun sections p =>
      let splits := validSplits p text
      if sections.length < splits.length ∧ splits.length < 200 then splits else sections)
    [text]

/-- Worker for `chunkBySize` at the only instantiation the source uses
(window 1500, overlap 200): emit `text.slice(start, min(start+1500, len))`,
advance to `end - 200`, and stop once the new start reaches `len - 200`. -/
def chunkGo (text : List Char) (start : Nat) : List (List Char) :=
  if h1 : start < text.length then
    let c := (text.drop start).take (min (start + 1500) text.length - start)
    if h2 : text.length - 200 ≤ min (start + 1500) text.length - 200 then [c]
    else c :: chunkGo text (min (start + 1500) text.length - 200)
  else []
termination_by text.length - start
decreasing_by omega

/-- chunkBySize (ingest-codes.js lines 439-449) with chunkSize 1500 and
overlap 200, as called from extractAndChunk. -/
def chunkBySize (text : List Char) : List (List Char) :=
  chunkGo text 0

/-- The final segment list of extractAndChunk: if no pattern split the text
and it is longer than 2000 characters, fall back to fixed-size chunking. -/
def sectionsOf (text : List Char) : List (List Char) :=
  let sections := chooseSections text
  if sections.length ≤ 1 ∧ 2000 < text.length then chunkBySize text else sections

/-! ### Per-segment field extraction (ingest-codes.js lines 410-431) -/

/-- Characters of the section-identifier class: digits, hyphen, en dash,
dot. -/
def isSecIdChar (c : Char) : Bool :=
  c.isDigit || c == '-' || c == '–' || c == '.'

/-- The call `content.match(/^§?\s*([\d\-–.]+)/)`, returning capture group 1: an
optional section sign, optional whitespace, then one-or-more identifier
characters (all three parts are mutually disjoint, so greedy matching is
exact). -/
def matchSectionId (cs : List Char) : Option (List Char) :=
  let r := match cs with
    | '§' :: t => t
    | _ => cs
  let grp := (r.dropWhile isWsChar).takeWhile isSecIdChar
  if grp.isEmpty then none else some grp

/-- First element of `trimmed.split('\n')`. -/
def firstLineOf (cs : List Char) : List Char :=
  cs.takeWhile fun c => c != '\n'

/-- The keyword table of extractKeywords (ingest-codes.js lines 460-489):
tag name paired with the literal alternatives of its case-insensitive
pattern, in source order. -/
def kwPatterns : List (String × List String) :=
  [ ("parking", ["parking", "garage", "vehicle storage"])
  , ("noise", ["noise", "sound", "decibel", "quiet"])
  , ("height", ["height", "storey", "angular plane", "setback"])
  , ("density", ["density", "floor area", "fsi", "units per"])
  , ("transit", ["transit", "ttc", "streetcar", "bus", "subway", "lrt"])
  , ("cycling", ["bicycle", "cycling", "bike lane", "bike parking"])
  , ("pedestrian", ["pedestrian", "sidewalk", "crosswalk", "walkway"])
  , ("snow", ["snow", "ice", "winter", "plow", "windrow"])
  , ("fence", ["fence", "enclosure", "barrier"])
  , ("tree", ["tree", "canopy", "urban forest"])
  , ("heritage", ["heritage", "conservation", "historic"])
  , ("sign", ["sign", "billboard", "advertising"])
  , ("waste", ["waste", "garbage", "recycling", "bin"])
  , ("water", ["water", "sewer", "drainage", "stormwater"])
  , ("housing", ["housing", "dwelling", "residential", "apartment", "multiplex"])
  , ("commercial", ["commercial", "retail", "restaurant", "business"])
  , ("property", ["property", "land", "lot", "zoning"])
  , ("permit", ["permit", "licence", "license", "application"])
  , ("construction", ["construction", "demolition", "building"])
  , ("accessibility", ["accessibility", "accessible", "barrier-free"])
  , ("fire", ["fire", "safety", "emergency", "smoke"])
  , ("boulevard", ["boulevard", "right-of-way", "road allowance"])
  , ("animal", ["animal", "dog", "pet", "cat"])
  , ("food", ["food", "restaurant", "patio", "cafe"])
  , ("rental", ["rental", "tenant", "landlord", "eviction"])
  , ("development", ["development", "site plan", "subdivision"])
  , ("setback", ["setback", "yard", "front yard", "rear yard", "side yard"])
  , ("laneway", ["laneway", "lane", "alley", "rear lane"])
  ]

/-- extractKeywords (ingest-codes.js lines 455-496): every tag whose pattern
matches the lowercased text, joined with ", " in table order (tag names are
distinct, so the JS Set adds each at most once, in this order). -/
def extractKeywords (content : List Char) : String :=
  let t := content.map Char.toLower
  ⟨joinWith ", ".data
    (((kwPatterns.filter fun pr => pr.2.any fun a => containsL t a.data).map
      fun pr => pr.1.data))⟩

/-- A provision object as built by extractAndChunk before insertion.  The
`section` field is Option String to mirror the data model (the provisions
table permits NULL there). -/
structure Prov where
  source : String
  chapter : String
  chapter_title : String
  «section» : Option String
  section_title : Option String
  content : String
  summary : Option String
  pdf_url : String
  keywords : String
deriving DecidableEq, Repr

/-- The body of the `sections.map((content, i) => ...)` callback. -/
def mkProvision (source chapter chapterTitle pdfUrl : String) (i : Nat)
    (content : List Char) : Prov :=
  let sid := (matchSectionId content).map jsTrim
  let trimmed := jsTrim content
  let firstLine := jsTrim (firstLineOf trimmed)
  { source := source
    chapter := chapter
    chapter_title := chapterTitle
    «section» := some (match sid with
      | some s => chapter ++ "-" ++ ⟨s⟩
      | none => chapter ++ " (Part " ++ toString (i + 1) ++ ")")
    section_title := if firstLine.isEmpty ∨ ¬ firstLine.length < 120 then none else some ⟨firstLine⟩
    content := ⟨trimmed.take 3000⟩
    summary := none
    pdf_url := pdfUrl
    keywords := extractKeywords content }

/-- The mapped provision list of extractAndChunk, before the final length
filter. -/
def extractProvisions (text : List Char) (source chapter chapterTitle pdfUrl : String) :
    List Prov :=
  (sectionsOf text).enum.map fun p => mkProvision source chapter chapterTitle pdfUrl p.1 p.2

/-- extractAndChunk (ingest-codes.js lines 371-434), from the extracted text
onward (PDF parsing is the external collaborator; a parse failure yields []
upstream of this function). -/
def extractAndChunk (text : String) (source chapter chapterTitle pdfUrl : String) :
    List Prov :=
  if text.length < 50 then []
  else (extractProvisions text.data source chapter chapterTitle pdfUrl).filter
    fun p => 50 < p.content.length

/-! ### Bulk insertion and the ingestion log (codes-db.js lines 177-232) -/

/-- An item handed to bulkInsert: a plain JS object, so any field may be
missing (None).  bulkInsert forwards `source`, `chapter`, `chapter_title` and
`content` as given and replaces a falsy `section`, `section_title`,
`summary`, `pdf_url` or `keywords` by NULL. -/
structure Item where
  source : Option String
  chapter : Option String
  chapter_title : Option String
  «section» : Option String
  section_title : Option String
  content : Option String
  summary : Option String
  pdf_url : Option String
  keywords : Option String
deriving DecidableEq, Repr

/-- The JS `x || null` applied to an optional string field: undefined and the
empty string both become NULL. -/
def orNull : Option String → Option String
  | some s => if s = "" then none else some s
  | none => none

/-- One row of the `ingestion_log` table as written by logIngestion (both of
its call-site arguments are always strings). -/
structure LogEntry where
  source : String
  chapter : String
  provisions_count : Nat
deriving DecidableEq, Repr

/-- The durable store: the provisions table plus the ingestion log (the FTS
index is maintained by triggers in the same transaction and contains no
independent state). -/
structure Db where
  provisions : List Row
  ingestion_log : List LogEntry
deriving DecidableEq, Repr

/-- A single INSERT INTO provisions: fails (SQLite throws) exactly when a
NOT NULL column — `source` or `content` — is NULL. -/
def insertRow (db : Db) (it : Item) : Except String Db :=
  match it.source, it.content with
  | some src, some c =>
    .ok { db with
      provisions := db.provisions ++
        [{ source := src
           chapter := it.chapter
           chapter_title := it.chapter_title
           «section» := orNull it.«section»
           section_title := orNull it.section_title
           content := c
           summary := orNull it.summary
           pdf_url := orNull it.pdf_url
           keywords := orNull it.keywords }] }
  | _, _ => .error "NOT NULL constraint failed"

/-- The insert loop inside bulkInsert's transaction; the first failing insert
throws out of the transaction callback. -/
def insertLoop (db : Db) : List Item → Except String Db
  | [] => .ok db
  | it :: rest =>
    match insertRow db it with
    | .ok db' => insertLoop db' rest
    | .error e => .error e

/-- bulkInsert (codes-db.js lines 177-202): the insert loop runs inside a
better-sqlite3 transaction, which on a throw rolls back (the caller's store
is unchanged) and rethrows; `none` in the second component models the
exception reaching the caller, `some n` the returned `provisions.length`. -/
def bulkInsert (db : Db) (items : List Item) : Db × Option Nat :=
  match insertLoop db items with
  | .ok db' => (db', some items.length)
  | .error _ => (db, none)

/-- isIngested (codes-db.js lines 223-227). -/
def isIngested (db : Db) (source chapter : String) : Bool :=
  db.ingestion_log.any fun e => e.source == source && e.chapter == chapter

/-- logIngestion (codes-db.js lines 229-232). -/
def logIngestion (db : Db) (source chapter : String) (count : Nat) : Db :=
  { db with ingestion_log := db.ingestion_log ++ [⟨source, chapter, count⟩] }

/-! ### The ingestion coordinator (ingest-codes.js ingestMunicipalCode and
the analogous ingestZoningBylaw / ingestOfficialPlan loops) -/

/-- One unit of the coordinator's catalog.  `fetched` is the result of the
external acquisition step followed by extractAndChunk: `none` models a fetch
or parse exception (caught per unit), `some items` the extracted provision
list.  Re-running over an unchanged document set presents the same `fetched`
value (the PDF cache makes acquisition deterministic). -/
structure IngestUnit where
  source : String
  chapter : String
  fetched : Option (List Item)

/-- The per-unit body of the ingestion loop (ingest-codes.js lines 543-575):
skip if already ingested; on successful fetch with a non-empty provision
list, bulk-insert and only then write the ingestion record; any thrown error
(fetch failure or insert failure) is caught and leaves this unit's work
undone. -/
def processUnit (db : Db) (u : IngestUnit) : Db :=
  if isIngested db u.source u.chapter then db
  else
    match u.fetched with
    | none => db
    | some items =>
      if 0 < items.length then
        match insertLoop db items with
        | .ok db' => logIngestion db' u.source u.chapter items.length
        | .error _ => db
      else db

/-- A full ingestion run over a catalog of units. -/
def ingestRun (db : Db) (units : List IngestUnit) : Db :=
  units.foldl processUnit db

/-! ### Query-term expansion (server.js extractSearchTerms, lines 81-134) -/

/-- The citizen-language mapping table of extractSearchTerms, in source
order: the literal alternatives of each trigger pattern, paired with the
expansion-term string whose space-separated words are unioned into the term
set when any alternative occurs in the lowercased story. -/
def mappings : List (List String × String) :=
  [ (["late", "commute", "bus", "streetcar", "subway", "ttc", "train", "transit", "shuttle"],
      "transit TTC service streetcar bus")
  , (["traffic", "congestion", "gridlock", "slow", "stuck"], "traffic right-of-way road")
  , (["rent", "apartment", "condo", "housing", "afford", "expensive", "lease"],
      "housing residential dwelling density")
  , (["basement", "suite", "secondary", "laneway", "garden suite"],
      "laneway secondary suite dwelling additional")
  , (["build", "construct", "renovate", "addition", "permit"],
      "building permit construction site plan")
  , (["parking", "park", "car", "drive", "garage"], "parking minimum vehicle spaces")
  , (["noise", "loud", "music", "construction noise", "barking"], "noise sound prohibited")
  , (["fence", "yard", "garden", "tree", "property line"], "fence property boundary setback")
  , (["snow", "plow", "ice", "winter", "shovel", "salt"], "snow ice removal clearing windrow")
  , (["garbage", "waste", "recycling", "bin", "collection"], "waste collection recycling")
  , (["restaurant", "bar", "cafe", "patio", "food", "shop", "store", "business"],
      "commercial retail restaurant licence patio")
  , (["sign", "billboard", "awning"], "sign advertising display")
  , (["sidewalk", "road", "pothole", "crosswalk", "intersection"],
      "street sidewalk road maintenance")
  , (["bike", "bicycle", "cycling", "cycle track"], "bicycle cycling lane")
  , (["pedestrian", "walk", "crossing"], "pedestrian crosswalk sidewalk")
  , (["development", "tower", "highrise", "condo", "new building"],
      "development height density setback angular")
  , (["heritage", "old building", "historic"], "heritage conservation designation")
  , (["safety", "dangerous", "hazard"], "safety property standard")
  , (["fire", "smoke", "alarm"], "fire safety building code")
  , (["dog", "pet", "animal", "leash"], "animal dog pet")
  , (["licence", "license", "permit", "application", "wait"], "licence permit application")
  ]

/-- JS Set.add: append if not already present (insertion order preserved). -/
def addTerm (l : List String) (t : String) : List String :=
  if t ∈ l then l else l ++ [t]

/-- Add every word of an expansion string to the term set. -/
def addTerms (l : List String) (ts : List String) : List String :=
  ts.foldl addTerm l

/-- Worker for `splitSpace`. -/
def splitSpaceAux : List Char → List Char → List (List Char)
  | [], acc => [acc.reverse]
  | c :: rest, acc =>
    if c == ' ' then acc.reverse :: splitSpaceAux rest [] else splitSpaceAux rest (c :: acc)

/-- JS `.split(' ')`: cut at every single space (the expansion strings use
single spaces throughout, so no empty words arise). -/
def splitSpace (s : List Char) : List (List Char) :=
  splitSpaceAux s []

/-- A literal alternative of the place-name regex; `some n` consumes n
characters. -/
def matchLit (lit : List Char) (cs : List Char) : Option Nat :=
  if startsWithL cs lit then some lit.length else none

/-- The `st\.?\s*clair` alternative: `st`, an optional dot, optional
whitespace, `clair`.  Backtracking over the optional dot cannot succeed when
the greedy path fails (a dot is not whitespace and not `c`), so the greedy
reading is exact. -/
def matchStClair (cs : List Char) : Option Nat :=
  if startsWithL cs "st".data then
    match cs.drop 2 with
    | '.' :: r2 =>
      let w := (r2.takeWhile isWsChar).length
      if startsWithL (r2.drop w) "clair".data then some (2 + 1 + w + 5) else none
    | r =>
      let w := (r.takeWhile isWsChar).length
      if startsWithL (r.drop w) "clair".data then some (2 + w + 5) else none
  else none

/-- An alternative of the form `pre( ?)post` (optional single space), e.g.
`cabbage ?town`; the optional-space backtracking cannot succeed when the
greedy path fails, since every `post` begins with a letter. -/
def matchOptSpace (pre post : List Char) (cs : List Char) : Option Nat :=
  if startsWithL cs pre then
    match cs.drop pre.length with
    | ' ' :: r2 =>
      if startsWithL r2 post then some (pre.length + 1 + post.length) else none
    | r =>
      if startsWithL r post then some (pre.length + post.length) else none
  else none

/-- The alternatives of the place-name regex (server.js line 130), in source
order. -/
def locationAlts : List (List Char → Option Nat) :=
  [ matchLit "queen".data, matchLit "king".data, matchLit "bloor".data
  , matchLit "dundas".data, matchLit "yonge".data, matchLit "spadina".data
  , matchLit "bathurst".data, matchLit "ossington".data, matchLit "college".data
  , matchStClair
  , matchLit "danforth".data, matchLit "eglinton".data, matchLit "lawrence".data
  , matchLit "sheppard".data, matchLit "finch".data, matchLit "scarborough".data
  , matchLit "etobicoke".data, matchLit "north york".data, matchLit "east york".data
  , matchLit "leslieville".data, matchLit "parkdale".data, matchLit "junction".data
  , matchLit "kensington".data, matchLit "annex".data, matchLit "beaches".data
  , matchLit "liberty".data, matchLit "distillery".data, matchLit "corktown".data
  , matchLit "regent".data, matchLit "moss park".data
  , matchOptSpace "cabbage".data "town".data, matchOptSpace "river".data "dale".data
  ]

/-- Try the alternatives in order at the current position; a candidate also
needs the trailing word boundary (every alternative ends in a letter, so the
boundary holds exactly when the next character is not a word character). -/
def firstLocMatch (alts : List (List Char → Option Nat)) (cs : List Char) : Option Nat :=
  match alts with
  | [] => none
  | f :: rest =>
    match f cs with
    | some n =>
      if match cs.drop n with
         | [] => true
         | c :: _ => ¬ isWordChar c
      then some n
      else firstLocMatch rest cs
    | none => firstLocMatch rest cs

/-- The global scan of `s.match(locationsRegex)`: at each position with a
leading word boundary (every alternative begins with a letter, so that
boundary holds exactly when the previous character is not a word character),
take the first matching alternative and resume after it.  The third argument
counts characters of the current match still to be stepped over (the regex
continues from the end of each match), keeping the recursion structural. -/
def scanLocations : List Char → Bool → Nat → List (List Char)
  | [], _, _ => []
  | c :: rest, _, skip + 1 => scanLocations rest (isWordChar c) skip
  | c :: rest, prevWord, 0 =>
    if prevWord then scanLocations rest (isWordChar c) 0
    else
      match firstLocMatch locationAlts (c :: rest) with
      | some n => (c :: rest).take n :: scanLocations rest (isWordChar c) (n - 1)
      | none => scanLocations rest (isWordChar c) 0

/-- extractSearchTerms (server.js lines 81-134): union the expansion terms of
every triggered mapping entry and every matched place name (lowercased) into
an insertion-ordered set, and join it with spaces. -/
def extractSearchTerms (story : String) : String :=
  let s : List Char := story.data.map Char.toLower
  let terms := mappings.foldl
    (fun acc m =>
      if m.1.any (fun trig => containsL s trig.data) then
        addTerms acc ((splitSpace m.2.data).map fun w => (⟨w⟩ : String))
      else acc)
    []
  let terms := (scanLocations s false 0).foldl
    (fun acc l => addTerm acc ⟨l.map Char.toLower⟩) terms
  ⟨joinWith " ".data (terms.map String.data)⟩

/-! ### Concrete fixtures used by counterexamples and witnesses -/

/-- An engine that rejects every MATCH query (FTS5 throwing), driving
searchProvisions onto its fallback path. -/
def rejectAll : FtsEngine :=
  { rejects := fun _ => true, matchesQ := fun _ _ => false, rank := fun _ _ => 0 }

/-- A stored zoning-by-law row whose content contains the word `parking`. -/
def rowZ : Row :=
  { source := "zoning_bylaw"
    chapter := some "Chapter 5"
    chapter_title := some "Parking"
    «section» := none
    section_title := none
    content := "street parking rules apply everywhere"
    summary := none
    pdf_url := none
    keywords := none }

/-- A chapter text that the ARTICLE pattern splits into two segments, neither
of which starts with a recoverable section identifier. -/
def wtext : String :=
  "ARTICLE I Officers duties and general responsibilities of the board described here in detail. ARTICLE II Meetings procedures and quorum requirements for the board described here."

/-- A plain chapter text longer than 50 characters that no boundary pattern
splits. -/
def t3text : String :=
  "All persons shall keep their walkways clear of obstructions."

/-- A chapter text split in two by the section-symbol pattern and untouched by
every other pattern. -/
def t7text : String :=
  "§ 1-1 Snow shall be removed from every walkway within twelve hours of a snowfall event. § 1-2 Ice shall be treated with salt or sand promptly thereafter by the owner."

/-- A chapter text on which the section-symbol pattern finds 2 valid segments
while the dotted-path pattern finds 3. -/
def c7text : String :=
  "alpha beta gamma delta epsilon zeta eta § 1-1 omicron rho sigma tau upsilon phii 1.2.3 lambda kappa iota theta mu nu xi pi 1.2.3 omega alef bet gimel dalet he vav zayin"

/-- Placeholder provision for headD in witnesses. -/
def dfltProv : Prov :=
  { source := ""
    chapter := ""
    chapter_title := ""
    «section» := none
    section_title := none
    content := ""
    summary := none
    pdf_url := ""
    keywords := "" }

/-- The empty store. -/
def db0 : Db :=
  { provisions := [], ingestion_log := [] }

/-- A well-formed insertion item. -/
def itemGood : Item :=
  { source := some "municipal_code"
    chapter := some "Chapter 591"
    chapter_title := some "Noise"
    «section» := some "Chapter 591-591-2.1"
    section_title := none
    content := some "No person shall make noise."
    summary := none
    pdf_url := none
    keywords := some "noise" }

/-- An item violating the NOT NULL constraint on `source`. -/
def itemBad : Item :=
  { source := none
    chapter := some "Chapter 591"
    chapter_title := none
    «section» := none
    section_title := none
    content := some "orphan record"
    summary := none
    pdf_url := none
    keywords := none }

/-- A catalog unit whose fetch succeeds with one valid provision. -/
def unitGood : IngestUnit :=
  { source := "municipal_code", chapter := "Chapter 591", fetched := some [itemGood] }

/-- A catalog unit whose bulk insert fails on a bad record. -/
def unitBad : IngestUnit :=
  { source := "municipal_code", chapter := "Chapter 600", fetched := some [itemGood, itemBad] }

/-- A store whose log already records unitGood's (source, chapter). -/
def dbLogged : Db :=
  { provisions := [], ingestion_log := [⟨"municipal_code", "Chapter 591", 3⟩] }

set_option maxRecDepth 10000

/-! ### Helper lemmas: injectivity of the decimal numeral printer

`toString (i + 1)` in `mkProvision` is `Nat.repr`; pairwise distinctness of
the synthesized references (claim C8) needs it to be injective, which is
proved here by parsing the digit string back. -/

/-- Numeric value of a decimal digit character. -/
def digitVal (c : Char) : Nat :=
  c.toNat - 48

/-- Parse a most-significant-first decimal digit list. -/
def parseDigits (l : List Char) : Nat :=
  l.foldl (fun a c => 10 * a + digitVal c) 0

theorem toDigitsCore_append (f n : Nat) (ds : List Char) :
    Nat.toDigitsCore 10 f n ds = Nat.toDigitsCore 10 f n [] ++ ds := by
  induction f generalizing n ds with
  | zero => simp [Nat.toDigitsCore]
  | succ f ih =>
    simp only [Nat.toDigitsCore]
    by_cases h : n / 10 = 0
    · simp [h]
    · simp only [h, if_false]
      rw [ih (n / 10) (Nat.digitChar (n % 10) :: ds), ih (n / 10) [Nat.digitChar (n % 10)]]
      simp

theorem parseDigits_append_one (l : List Char) (c : Char) :
    parseDigits (l ++ [c]) = 10 * parseDigits l + digitVal c := by
  simp [parseDigits, List.foldl_append]

theorem digitVal_digitChar (n : Nat) (h : n < 10) : digitVal (Nat.digitChar n) = n := by
  interval_cases n <;> rfl

theorem parseDigits_toDigitsCore (n : Nat) :
    ∀ f, n < f → parseDigits (Nat.toDigitsCore 10 f n []) = n := by
  induction n using Nat.strong_induction_on with
  | _ n ih =>
    intro f hf
    cases f with
    | zero => omega
    | succ f =>
      simp only [Nat.toDigitsCore]
      by_cases h : n / 10 = 0
      · have hn : n < 10 := by omega
        simp only [h, if_true]
        have : parseDigits [Nat.digitChar (n % 10)] = digitVal (Nat.digitChar (n % 10)) := by
          simp [parseDigits]
        rw [this, digitVal_digitChar (n % 10) (by omega)]
        omega
      · simp only [h, if_false]
        rw [toDigitsCore_append, parseDigits_append_one]
        have hlt : n / 10 < n := Nat.div_lt_self (by omega) (by omega)
        rw [ih (n / 10) hlt f (by omega), digitVal_digitChar (n % 10) (by omega)]
        omega

theorem natRepr_injective : Function.Injective Nat.repr := by
  intro m n h
  have hd : Nat.toDigits 10 m = Nat.toDigits 10 n := by
    have := congrArg String.data h
    simpa [Nat.repr, List.asString] using this
  have hm := parseDigits_toDigitsCore m (m + 1) (by omega)
  have hn := parseDigits_toDigitsCore n (n + 1) (by omega)
  simp only [Nat.toDigits] at hd
  rw [← hm, ← hn, hd]

/-! ### Helper lemmas: substring containment and joining -/

theorem startsWithL_refl (l : List Char) : startsWithL l l = true := by
  induction l with
  | nil => rfl
  | cons a t ih => simp [startsWithL, ih]

theorem containsL_self (l : List Char) : containsL l l = true := by
  cases l with
  | nil => rfl
  | cons a t => simp [containsL, startsWithL_refl]

theorem containsL_nil (hay : List Char) : containsL hay [] = true := by
  cases hay with
  | nil => rfl
  | cons a t => simp [containsL, startsWithL]

theorem startsWithL_append (l n b : List Char) (h : startsWithL l n = true) :
    startsWithL (l ++ b) n = true := by
  induction n generalizing l with
  | nil => simp [startsWithL]
  | cons x xs ih =>
    cases l with
    | nil => simp [startsWithL] at h
    | cons a t =>
      simp only [startsWithL, Bool.and_eq_true] at h
      simp [startsWithL, h.1, ih t h.2]

theorem containsL_append_left (a b n : List Char) (h : containsL a n = true) :
    containsL (a ++ b) n = true := by
  induction a with
  | nil =>
    simp only [containsL] at h
    rw [List.isEmpty_iff] at h
    subst h
    exact containsL_nil b
  | cons x xs ih =>
    simp only [containsL, Bool.or_eq_true] at h ⊢
    rcases h with h | h
    · exact Or.inl (startsWithL_append _ _ _ h)
    · exact Or.inr (ih h)

theorem containsL_append_right (a b n : List Char) (h : containsL b n = true) :
    containsL (a ++ b) n = true := by
  induction a with
  | nil => simpa using h
  | cons x xs ih => simp [containsL, ih]

theorem containsL_joinWith (sep : List Char) (L : List (List Char)) (l : List Char)
    (h : l ∈ L) : containsL (joinWith sep L) l = true := by
  induction L with
  | nil => simp at h
  | cons x xs ih =>
    cases xs with
    | nil =>
      simp only [List.mem_singleton] at h
      subst h
      exact containsL_self l
    | cons y ys =>
      rcases List.mem_cons.mp h with rfl | h'
      · exact containsL_append_left _ _ _ (containsL_self l)
      · exact containsL_append_right _ _ _ (containsL_append_right _ _ _ (ih h'))

theorem ne_nil_of_containsL (j t : List Char) (hc : containsL j t = true) (ht : t ≠ []) :
    j ≠ [] := by
  intro hj
  subst hj
  simp only [containsL, List.isEmpty_iff] at hc
  exact ht hc

/-! ### Helper lemmas: the insertion-ordered term set of extractSearchTerms -/

theorem mem_addTerm_of_mem (l : List String) (t u : String) (h : t ∈ l) : t ∈ addTerm l u := by
  unfold addTerm
  split
  · exact h
  · exact List.mem_append_left _ h

theorem mem_addTerm_self (l : List String) (t : String) : t ∈ addTerm l t := by
  unfold addTerm
  split
  · assumption
  · exact List.mem_append_right _ (by simp)

theorem mem_addTerms_of_mem (ts : List String) (l : List String) (t : String) (h : t ∈ l) :
    t ∈ addTerms l ts := by
  induction ts generalizing l with
  | nil => exact h
  | cons a rest ih => exact ih _ (mem_addTerm_of_mem _ _ _ h)

theorem mem_addTerms_self (ts : List String) (t : String) (h : t ∈ ts) :
    ∀ l, t ∈ addTerms l ts := by
  induction ts with
  | nil => simp at h
  | cons a rest ih =>
    intro l
    show t ∈ addTerms (addTerm l a) rest
    rcases List.mem_cons.mp h with rfl | h'
    · exact mem_addTerms_of_mem rest (addTerm l t) t (mem_addTerm_self l t)
    · exact ih h' (addTerm l a)

theorem mem_mapStep_fold (s : List Char) (maps : List (List String × String)) (t : String) :
    ∀ acc, t ∈ acc →
      t ∈ maps.foldl
        (fun acc m =>
          if m.1.any (fun trig => containsL s trig.data) then
            addTerms acc ((splitSpace m.2.data).map fun w => (⟨w⟩ : String))
          else acc)
        acc := by
  induction maps with
  | nil => intro acc h; exact h
  | cons a rest ih =>
    intro acc h
    simp only [List.foldl_cons]
    apply ih
    split
    · exact mem_addTerms_of_mem _ _ _ h
    · exact h

theorem mem_mapStep_fold_self (s : List Char) (maps : List (List String × String))
    (m : List String × String) (hm : m ∈ maps)
    (htrig : m.1.any (fun trig => containsL s trig.data) = true) (t : String)
    (ht : t ∈ (splitSpace m.2.data).map fun w => (⟨w⟩ : String)) :
    ∀ acc,
      t ∈ maps.foldl
        (fun acc m =>
          if m.1.any (fun trig => containsL s trig.data) then
            addTerms acc ((splitSpace m.2.data).map fun w => (⟨w⟩ : String))
          else acc)
        acc := by
  induction maps with
  | nil => simp at hm
  | cons a rest ih =>
    intro acc
    simp only [List.foldl_cons]
    rcases List.mem_cons.mp hm with rfl | hrest
    · apply mem_mapStep_fold
      simp only [htrig, if_true]
      exact mem_addTerms_self _ _ ht _
    · exact ih hrest _

theorem mem_locFold_of_mem (locs : List (List Char)) (t : String) :
    ∀ acc, t ∈ acc →
      t ∈ locs.foldl (fun acc l => addTerm acc ⟨l.map Char.toLower⟩) acc := by
  induction locs with
  | nil => intro acc h; exact h
  | cons a rest ih => intro acc h; exact ih _ (mem_addTerm_of_mem _ _ _ h)

/-- C9: for each configured trigger phrase of the expansion mapping table,
every input containing that phrase (case-insensitively) makes
extractSearchTerms return a non-empty term string that contains at least one
of that entry's configured expansion terms. -/
theorem extractSearchTerms_covers (m : List String × String) (hm : m ∈ mappings)
    (trig : String) (htm : trig ∈ m.1) (story : String)
    (hc : containsL (story.data.map Char.toLower) trig.data = true) :
    extractSearchTerms story ≠ "" ∧
      ∃ t ∈ splitSpace m.2.data,
        t ≠ [] ∧ containsL (extractSearchTerms story).data t = true := by
  have htrig : m.1.any
      (fun trig => containsL (story.data.map Char.toLower) trig.data) = true :=
    List.any_eq_true.mpr ⟨trig, htm, hc⟩
  have hword : ∀ mm ∈ mappings, ∃ t ∈ splitSpace mm.2.data, t ≠ [] := by decide
  obtain ⟨t, htmem, htne⟩ := hword m hm
  have hmem2 : (⟨t⟩ : String) ∈
      (scanLocations (story.data.map Char.toLower) false 0).foldl
        (fun acc l => addTerm acc ⟨l.map Char.toLower⟩)
        (mappings.foldl
          (fun acc m =>
            if m.1.any (fun trig => containsL (story.data.map Char.toLower) trig.data) then
              addTerms acc ((splitSpace m.2.data).map fun w => (⟨w⟩ : String))
            else acc)
          []) := by
    apply mem_locFold_of_mem
    exact mem_mapStep_fold_self _ mappings m hm htrig _
      (List.mem_map_of_mem _ htmem) []
  have hcont : containsL (extractSearchTerms story).data t = true := by
    unfold extractSearchTerms
    apply containsL_joinWith
    exact List.mem_map.mpr ⟨⟨t⟩, hmem2, rfl⟩
  refine ⟨?_, t, htmem, htne, hcont⟩
  intro heq
  rw [heq] at hcont
  simp only [containsL, List.isEmpty_iff] at hcont
  · exact htne hcont

/-- C9 witness at "the bus was late" and the first mapping entry, trigger
"bus". -/
theorem extractSearchTerms_covers_witness :
    extractSearchTerms "the bus was late" ≠ "" ∧
      ∃ t ∈ splitSpace "transit TTC service streetcar bus".data,
        t ≠ [] ∧ containsL (extractSearchTerms "the bus was late").data t = true :=
  extractSearchTerms_covers
    (["late", "commute", "bus", "streetcar", "subway", "ttc", "train", "transit", "shuttle"],
      "transit TTC service streetcar bus")
    (by decide) "bus" (by decide) "the bus was late" (by decide)

/-! ### C2: searchProvisions never raises -/

/-- C2: for every input query string (and any store, engine behaviour, limit
and source filter), searchProvisions returns a result list — possibly empty —
and never propagates an error to the caller: the empty-cleaned-query
short-circuit returns [], and the catch around the ranked query turns every
FTS rejection into the LIKE fallback. -/
theorem searchProvisions_never_errors (E : FtsEngine) (store : List Row) (query : String)
    (limit : Nat) (src : Option String) :
    ∃ rows, searchProvisions E store query limit src = .ok rows := by
  simp only [searchProvisions]
  split
  · exact ⟨[], rfl⟩
  · split
    · exact ⟨_, rfl⟩
    · exact ⟨_, rfl⟩

/-! ### C1: what the fallback actually does -/

/-- C1 counterexample: with an engine that rejects the (non-empty) cleaned
query "parking noise", searchProvisions on a one-row store does NOT return
what the claim describes (same fields, same cleaned term list, AND-combined):
the row matches only the term "parking", so the AND-combined spec search
returns nothing, while the implementation returns the row. -/
theorem fallback_not_spec_counterexample :
    rejectAll.rejects (cleanQueryStr "parking noise") = true ∧
    cleanQueryStr "parking noise" ≠ "" ∧
    searchProvisions rejectAll [rowZ] "parking noise" 5 none ≠
      .ok (fallbackSearchSpec [rowZ] "parking noise" 5 none) := by
  refine ⟨rfl, by decide, ?_⟩
  have h1 : searchProvisions rejectAll [rowZ] "parking noise" 5 none = .ok [rowZ] := rfl
  have h2 : fallbackSearchSpec [rowZ] "parking noise" 5 none = [] := rfl
  rw [h1, h2]
  intro h
  exact absurd (Except.ok.inj h) (by simp)

/-- C1 (amended): when the FTS engine rejects the non-empty cleaned query,
searchProvisions degrades to fallbackSearch — a LIKE substring search over
the content, chapter_title and section_title columns only, whose terms are
the raw whitespace-split tokens of the query (length > 2), OR-combined (any
one matching term suffices; a source filter attaches to the last term's
condition only), returning at most `limit` rows of the store. -/
theorem searchProvisions_fallback_shape (E : FtsEngine) (store : List Row) (query : String)
    (limit : Nat) (src : Option String)
    (hne : cleanQueryStr query ≠ "")
    (hrej : E.rejects (cleanQueryStr query) = true) :
    searchProvisions E store query limit src = .ok (fallbackSearch store query limit src) ∧
    (fallbackSearch store query limit src).length ≤ limit ∧
    ∀ p ∈ fallbackSearch store query limit src,
      p ∈ store ∧ ∃ t ∈ rawTerms query, termCond t p = true := by
  refine ⟨?_, ?_, ?_⟩
  · simp [searchProvisions, ftsQuery, hne, hrej]
  · simp only [fallbackSearch]
    split
    · simp
    · exact List.length_take_le _ _
  · intro p hp
    simp only [fallbackSearch] at hp
    split at hp
    · simp at hp
    · have hp' := List.mem_of_mem_take hp
      obtain ⟨hps, hpw⟩ := List.mem_filter.mp hp'
      refine ⟨hps, ?_⟩
      unfold fallbackWhere at hpw
      cases src with
      | none => exact List.any_eq_true.mp hpw
      | some s =>
        simp only [Bool.or_eq_true] at hpw
        rcases hpw with h | h
        · obtain ⟨t, ht, hc⟩ := List.any_eq_true.mp h
          exact ⟨t, List.dropLast_subset _ ht, hc⟩
        · cases hg : (rawTerms query).getLast? with
          | none => rw [hg] at h; simp at h
          | some t =>
            rw [hg] at h
            simp only [Bool.and_eq_true] at h
            obtain ⟨hc, _⟩ := h
            obtain ⟨hne', heq⟩ := List.mem_getLast?_eq_getLast (hg ▸ rfl : t ∈ (rawTerms query).getLast?)
            exact ⟨t, heq ▸ List.getLast_mem hne', hc⟩

/-- C1 (amended) witness: the rejecting engine on the one-row store. -/
theorem searchProvisions_fallback_shape_witness :
    searchProvisions rejectAll [rowZ] "parking noise" 5 none =
      .ok (fallbackSearch [rowZ] "parking noise" 5 none) ∧
    (fallbackSearch [rowZ] "parking noise" 5 none).length ≤ 5 ∧
    ∀ p ∈ fallbackSearch [rowZ] "parking noise" 5 none,
      p ∈ [rowZ] ∧ ∃ t ∈ rawTerms "parking noise", termCond t p = true :=
  searchProvisions_fallback_shape rejectAll [rowZ] "parking noise" 5 none (by decide) rfl

/-! ### C6: the fallback's source filter -/

/-- C6: on the fallback path with two raw terms, the generated SQL
`... c1 OR c2 AND p.source = ?` lets SQL's precedence attach the source test
to the last condition only, so a row of a DIFFERENT source that matches the
first term is returned: searching with source filter "municipal_code" over a
store holding one "zoning_bylaw" row returns that row. -/
theorem fallback_source_filter_bug :
    searchProvisions rejectAll [rowZ] "parking noise" 5 (some "municipal_code") = .ok [rowZ] ∧
    rowZ.source ≠ "municipal_code" :=
  ⟨rfl, by decide⟩

/-! ### C3: content length bounds after segmentation -/

/-- C3: every provision produced by extractAndChunk has non-empty content of
length at least 50 (the filter actually enforces strictly more than 50) and
at most 3000 (the slice cap). -/
theorem extractAndChunk_content_bounds (text source chapter chapterTitle pdfUrl : String)
    (p : Prov) (hp : p ∈ extractAndChunk text source chapter chapterTitle pdfUrl) :
    p.content ≠ "" ∧ 50 ≤ p.content.length ∧ p.content.length ≤ 3000 := by
  unfold extractAndChunk at hp
  split at hp
  · simp at hp
  · obtain ⟨hmem, hlen⟩ := List.mem_filter.mp hp
    have h50 : 50 < p.content.length := by simpa using hlen
    refine ⟨?_, by omega, ?_⟩
    · intro h
      rw [h] at h50
      simp at h50
    · unfold extractProvisions at hmem
      obtain ⟨⟨i, c⟩, hq, rfl⟩ := List.mem_map.mp hmem
      simp only [mkProvision, String.length]
      exact List.length_take_le _ _

/-- C3 witness: the single provision extracted from a plain 60-character
chapter text. -/
theorem extractAndChunk_content_bounds_witness :
    ((extractAndChunk t3text "municipal_code" "Chapter 1" "Streets" "u").headD dfltProv).content
        ≠ "" ∧
    50 ≤ ((extractAndChunk t3text "municipal_code" "Chapter 1" "Streets"
      "u").headD dfltProv).content.length ∧
    ((extractAndChunk t3text "municipal_code" "Chapter 1" "Streets"
      "u").headD dfltProv).content.length ≤ 3000 :=
  extractAndChunk_content_bounds t3text "municipal_code" "Chapter 1" "Streets" "u" _ (by decide)

/-! ### C10 and C8: the section reference -/

theorem isSecIdChar_not_ws (c : Char) (h : isSecIdChar c = true) : isWsChar c = false := by
  by_contra hw
  rw [Bool.not_eq_false] at hw
  simp only [isWsChar, Bool.or_eq_true, beq_iff_eq] at hw
  rcases hw with ((((rfl | rfl) | rfl) | rfl) | rfl) | rfl <;> exact absurd h (by decide)

theorem dropWhile_eq_self_of_all (p : Char → Bool) (l : List Char)
    (h : ∀ c ∈ l, p c = false) : l.dropWhile p = l := by
  cases l with
  | nil => rfl
  | cons a t => simp [List.dropWhile_cons, h a (List.mem_cons_self a t)]

theorem jsTrim_eq_self (l : List Char) (h : ∀ c ∈ l, isWsChar c = false) : jsTrim l = l := by
  unfold jsTrim
  rw [dropWhile_eq_self_of_all _ _ h,
    dropWhile_eq_self_of_all _ _ (fun c hc => h c (List.mem_reverse.mp hc))]
  exact List.reverse_reverse l

theorem matchSectionId_some (cs grp : List Char) (h : matchSectionId cs = some grp) :
    grp ≠ [] ∧ ∀ c ∈ grp, isSecIdChar c = true := by
  simp only [matchSectionId] at h
  split at h
  · simp at h
  · rename_i hne
    obtain rfl := Option.some.inj h
    constructor
    · simpa [List.isEmpty_iff] using hne
    · intro c hc
      exact List.mem_takeWhile_imp hc

theorem extractAndChunk_section_reference (text source chapter chapterTitle pdfUrl : String)
    (p : Prov) (hp : p ∈ extractAndChunk text source chapter chapterTitle pdfUrl) :
    ∃ rest : String, rest ≠ "" ∧ p.«section» = some (chapter ++ rest) ∧
      ((∃ sid : String, sid ≠ "" ∧ rest = "-" ++ sid) ∨
        (∃ n : Nat, rest = " (Part " ++ toString n ++ ")")) := by
  unfold extractAndChunk at hp
  split at hp
  · simp at hp
  · obtain ⟨hmem, _⟩ := List.mem_filter.mp hp
    unfold extractProvisions at hmem
    obtain ⟨⟨i, c⟩, hq, rfl⟩ := List.mem_map.mp hmem
    cases hm : matchSectionId c with
    | some grp =>
      obtain ⟨hne, hall⟩ := matchSectionId_some c grp hm
      have htrim : jsTrim grp = grp :=
        jsTrim_eq_self grp fun x hx => isSecIdChar_not_ws x (hall x hx)
      refine ⟨"-" ++ (⟨grp⟩ : String), ?_, ?_, Or.inl ⟨⟨grp⟩, ?_, rfl⟩⟩
      · intro h
        have := congrArg String.data h
        simp [String.data_append] at this
      · simp only [mkProvision, hm, Option.map_some', htrim]
        rw [String.append_assoc]
      · intro h
        exact hne (congrArg String.data h)
    | none =>
      refine ⟨" (Part " ++ toString (i + 1) ++ ")", ?_, ?_, Or.inr ⟨i + 1, rfl⟩⟩
      · intro h
        have := congrArg String.data h
        simp [String.data_append] at this
      · simp only [mkProvision, hm, Option.map_none']
        simp [String.append_assoc]

theorem extractAndChunk_section_reference_witness :
    ∃ rest : String, rest ≠ "" ∧
      ((extractAndChunk wtext "municipal_code" "Chapter 9" "Gov" "u").headD dfltProv).«section» =
        some ("Chapter 9" ++ rest) ∧
      ((∃ sid : String, sid ≠ "" ∧ rest = "-" ++ sid) ∨
        (∃ n : Nat, rest = " (Part " ++ toString n ++ ")")) :=
  extractAndChunk_section_reference wtext "municipal_code" "Chapter 9" "Gov" "u" _ (by decide)

/-- C8: when every segment of a chapter lacks a recoverable section
identifier, the synthesized references are exactly chapter (Part 1) through
chapter (Part n) — n the 1-based position of the segment within the chapter —
and they are pairwise distinct. -/
theorem extractProvisions_part_refs (text : List Char)
    (source chapter chapterTitle pdfUrl : String)
    (hnone : ∀ s ∈ sectionsOf text, matchSectionId s = none) :
    (extractProvisions text source chapter chapterTitle pdfUrl).map Prov.«section» =
      (List.range (sectionsOf text).length).map
        (fun i => some (chapter ++ " (Part " ++ toString (i + 1) ++ ")")) ∧
    ((extractProvisions text source chapter chapterTitle pdfUrl).map Prov.«section»).Nodup := by
  have hmap : (extractProvisions text source chapter chapterTitle pdfUrl).map Prov.«section» =
      (List.range (sectionsOf text).length).map
        (fun i => some (chapter ++ " (Part " ++ toString (i + 1) ++ ")")) := by
    unfold extractProvisions
    rw [List.map_map]
    apply List.ext_getElem
    · simp [List.enum_length]
    · intro i h1 h2
      simp only [List.getElem_map, List.getElem_enum, Function.comp_apply, List.getElem_range]
      have hi : i < (sectionsOf text).length := by simpa [List.enum_length] using h1
      have hsec := hnone (sectionsOf text)[i] (List.getElem_mem _)
      simp [mkProvision, hsec]
  refine ⟨hmap, ?_⟩
  rw [hmap]
  apply List.Nodup.map ?_ (List.nodup_range _)
  intro a b hab
  have h1 := Option.some.inj hab
  have h2 := congrArg String.data h1
  simp only [String.data_append] at h2
  have h3 := List.append_cancel_right h2
  have h4 := List.append_cancel_left h3
  have h5 : (toString (a + 1) : String) = toString (b + 1) := congrArg String.mk h4
  have h6 : a + 1 = b + 1 := natRepr_injective h5
  omega

/-- C8 witness: the two-segment ARTICLE chapter, whose segments both lack a
recoverable identifier; the emitted references are pairwise distinct. -/
theorem extractProvisions_part_refs_witness :
    (∀ s ∈ sectionsOf wtext.data, matchSectionId s = none) ∧
    ((extractProvisions wtext.data "municipal_code" "Chapter 9" "Gov" "u").map
      Prov.«section»).Nodup :=
  ⟨by decide,
    (extractProvisions_part_refs wtext.data "municipal_code" "Chapter 9" "Gov" "u" (by decide)).2⟩

/-! ### C7: pattern selection and segment count -/

/-- C7 counterexample: on c7text the section-symbol pattern finds 2 valid
segments (each longer than 30 characters after trimming, and 1 < 2 < 200),
yet the segmenter outputs 3 segments, because the dotted-path pattern finds
more; the output count does not equal every matching pattern's k. -/
theorem segment_count_counterexample :
    SectionPattern.secSym ∈ sectionPatterns ∧
    validCount .secSym c7text.data = 2 ∧
    1 < 2 ∧ 2 < 200 ∧
    (sectionsOf c7text.data).length ≠ 2 ∧
    (sectionsOf c7text.data).length = 3 :=
  ⟨by decide, by decide, by decide, by decide, by decide, by decide⟩

theorem chooseSections_length (text : List Char) (k : Nat)
    (hex : validCount .secSym text = k ∨ validCount .article text = k ∨
      validCount .dotted text = k ∨ validCount .paren text = k)
    (h1 : 1 < k) (h2 : k < 200)
    (hm1 : validCount .secSym text < 200 → validCount .secSym text ≤ k)
    (hm2 : validCount .article text < 200 → validCount .article text ≤ k)
    (hm3 : validCount .dotted text < 200 → validCount .dotted text ≤ k)
    (hm4 : validCount .paren text < 200 → validCount .paren text ≤ k) :
    (chooseSections text).length = k := by
  simp only [validCount] at *
  simp only [chooseSections, sectionPatterns, List.foldl]
  split_ifs <;> simp_all <;> omega

/-- C7 (amended): the segmenter's output count equals the pattern's k when k
is the LARGEST valid count any pattern attains below the 200 cap (with
1 < k < 200); in particular the whole-document single-segment fallback is
never chosen over such a pattern match. -/
theorem sectionsOf_count_max (text : List Char) (p : SectionPattern)
    (hp : p ∈ sectionPatterns) (k : Nat) (hk : validCount p text = k)
    (h1 : 1 < k) (h2 : k < 200)
    (hmax : ∀ q ∈ sectionPatterns, validCount q text < 200 → validCount q text ≤ k) :
    (sectionsOf text).length = k := by
  have hex : validCount .secSym text = k ∨ validCount .article text = k ∨
      validCount .dotted text = k ∨ validCount .paren text = k := by
    fin_cases hp
    · exact Or.inl hk
    · exact Or.inr (Or.inl hk)
    · exact Or.inr (Or.inr (Or.inl hk))
    · exact Or.inr (Or.inr (Or.inr hk))
  have hc := chooseSections_length text k hex h1 h2 (hmax .secSym (by decide))
    (hmax .article (by decide)) (hmax .dotted (by decide)) (hmax .paren (by decide))
  simp only [sectionsOf]
  rw [if_neg]
  · exact hc
  · intro hcon
    obtain ⟨ha, _⟩ := hcon
    rw [hc] at ha
    omega

/-- C7 (amended) witness: a chapter where only the section-symbol pattern
splits (k = 2). -/
theorem sectionsOf_count_max_witness : (sectionsOf t7text.data).length = 2 :=
  sectionsOf_count_max t7text.data .secSym (by decide) 2 (by decide) (by decide) (by decide)
    (by decide)

/-! ### C5 and C4: bulk insertion atomicity and ingestion idempotence -/

theorem insertRow_error_of_bad (db : Db) (it : Item)
    (h : it.source = none ∨ it.content = none) : ∃ e, insertRow db it = .error e := by
  unfold insertRow
  rcases h with h | h
  · rw [h]
    exact ⟨_, rfl⟩
  · cases hs : it.source with
    | none => exact ⟨_, rfl⟩
    | some s =>
      rw [h]
      exact ⟨_, rfl⟩

theorem insertLoop_error_of_bad (items : List Item) :
    ∀ db, (∃ it ∈ items, it.source = none ∨ it.content = none) →
      ∃ e, insertLoop db items = .error e := by
  induction items with
  | nil =>
    intro db h
    simp at h
  | cons a rest ih =>
    intro db h
    rcases h with ⟨it, hmem, hbad⟩
    rcases List.mem_cons.mp hmem with rfl | hrest
    · obtain ⟨e, he⟩ := insertRow_error_of_bad db it hbad
      exact ⟨e, by simp [insertLoop, he]⟩
    · cases hr : insertRow db a with
      | ok db' =>
        obtain ⟨e, he⟩ := ih db' ⟨it, hrest, hbad⟩
        exact ⟨e, by simp [insertLoop, hr, he]⟩
      | error e => exact ⟨e, by simp [insertLoop, hr]⟩

theorem bad_of_insertLoop_error (items : List Item) :
    ∀ db e, insertLoop db items = .error e →
      ∃ it ∈ items, it.source = none ∨ it.content = none := by
  induction items with
  | nil =>
    intro db e h
    simp [insertLoop] at h
  | cons a rest ih =>
    intro db e h
    simp only [insertLoop] at h
    cases hr : insertRow db a with
    | ok db' =>
      rw [hr] at h
      obtain ⟨it, hm, hb⟩ := ih db' e h
      exact ⟨it, List.mem_cons_of_mem _ hm, hb⟩
    | error e' =>
      refine ⟨a, List.mem_cons_self _ _, ?_⟩
      unfold insertRow at hr
      cases hs : a.source with
      | none => exact Or.inl rfl
      | some s =>
        cases hc : a.content with
        | none => exact Or.inr rfl
        | some ct =>
          rw [hs, hc] at hr
          simp at hr

/-- C5: if inserting any single record of a batch fails (a NOT NULL column —
source or content — is missing), the whole bulkInsert transaction rolls back:
the store is left exactly as it was, with none of the batch's records
inserted, and the exception reaches the caller. -/
theorem bulkInsert_atomic (db : Db) (items : List Item)
    (hbad : ∃ it ∈ items, it.source = none ∨ it.content = none) :
    bulkInsert db items = (db, none) := by
  obtain ⟨e, he⟩ := insertLoop_error_of_bad items db hbad
  simp [bulkInsert, he]

/-- C5 witness: a two-record batch whose second record lacks `source`. -/
theorem bulkInsert_atomic_witness : bulkInsert db0 [itemGood, itemBad] = (db0, none) :=
  bulkInsert_atomic db0 [itemGood, itemBad] ⟨itemBad, by decide, Or.inl rfl⟩

theorem insertRow_log (db : Db) (a : Item) (db' : Db) (h : insertRow db a = .ok db') :
    db'.ingestion_log = db.ingestion_log := by
  unfold insertRow at h
  cases hs : a.source with
  | none =>
    rw [hs] at h
    simp at h
  | some s =>
    cases hc : a.content with
    | none =>
      rw [hs, hc] at h
      simp at h
    | some ct =>
      rw [hs, hc] at h
      obtain rfl := Except.ok.inj h
      rfl

theorem insertLoop_log (items : List Item) :
    ∀ db db', insertLoop db items = .ok db' → db'.ingestion_log = db.ingestion_log := by
  induction items with
  | nil =>
    intro db db' h
    obtain rfl := Except.ok.inj h
    rfl
  | cons a rest ih =>
    intro db db' h
    simp only [insertLoop] at h
    cases hr : insertRow db a with
    | ok dbm =>
      rw [hr] at h
      rw [ih dbm db' h, insertRow_log db a dbm hr]
    | error e =>
      rw [hr] at h
      simp at h

theorem processUnit_of_ingested (db : Db) (u : IngestUnit)
    (h : isIngested db u.source u.chapter = true) : processUnit db u = db := by
  simp [processUnit, h]

theorem isIngested_processUnit (db : Db) (u : IngestUnit) (s c : String)
    (h : isIngested db s c = true) : isIngested (processUnit db u) s c = true := by
  unfold processUnit
  split
  · exact h
  · split
    · exact h
    · split
      · split
        · next db' hloop =>
          have hlog := insertLoop_log _ db db' hloop
          simp only [isIngested, logIngestion, List.any_append, hlog, Bool.or_eq_true]
          exact Or.inl h
        · exact h
      · exact h

theorem processUnit_cases (db : Db) (u : IngestUnit) :
    isIngested (processUnit db u) u.source u.chapter = true ∨ ∀ d, processUnit d u = d := by
  by_cases hi : isIngested db u.source u.chapter = true
  · exact Or.inl (by rw [processUnit_of_ingested db u hi]; exact hi)
  · cases hf : u.fetched with
    | none =>
      refine Or.inr fun d => ?_
      by_cases hd : isIngested d u.source u.chapter = true
      · exact processUnit_of_ingested d u hd
      · simp [processUnit, hd, hf]
    | some items =>
      by_cases hlen : 0 < items.length
      · cases he : insertLoop db items with
        | ok db' =>
          left
          have hpu : processUnit db u = logIngestion db' u.source u.chapter items.length := by
            simp [processUnit, hi, hf, hlen, he]
          rw [hpu]
          simp [isIngested, logIngestion, List.any_append]
        | error e =>
          obtain ⟨it, hm, hb⟩ := bad_of_insertLoop_error items db e he
          refine Or.inr fun d => ?_
          by_cases hd : isIngested d u.source u.chapter = true
          · exact processUnit_of_ingested d u hd
          · obtain ⟨e', he'⟩ := insertLoop_error_of_bad items d ⟨it, hm, hb⟩
            simp [processUnit, hd, hf, hlen, he']
      · refine Or.inr fun d => ?_
        by_cases hd : isIngested d u.source u.chapter = true
        · exact processUnit_of_ingested d u hd
        · simp [processUnit, hd, hf, hlen]

theorem ingestRun_ingested_mono (units : List IngestUnit) :
    ∀ db s c, isIngested db s c = true → isIngested (ingestRun db units) s c = true := by
  induction units with
  | nil => intro db s c h; exact h
  | cons v rest ih => intro db s c h; exact ih _ _ _ (isIngested_processUnit _ _ _ _ h)

theorem ingestRun_settled (units : List IngestUnit) :
    ∀ db, ∀ u ∈ units, processUnit (ingestRun db units) u = ingestRun db units := by
  induction units with
  | nil =>
    intro db u hu
    simp at hu
  | cons v rest ih =>
    intro db u hu
    have hrun : ingestRun db (v :: rest) = ingestRun (processUnit db v) rest := rfl
    rcases List.mem_cons.mp hu with rfl | hrest
    · rcases processUnit_cases db u with hlog | hid
      · rw [hrun]
        exact processUnit_of_ingested _ _ (ingestRun_ingested_mono rest (processUnit db u) _ _ hlog)
      · exact hid _
    · rw [hrun]
      exact ih (processUnit db v) u hrest

theorem ingestRun_of_settled (units : List IngestUnit) :
    ∀ db, (∀ u ∈ units, processUnit db u = db) → ingestRun db units = db := by
  induction units with
  | nil => intro db _; rfl
  | cons v rest ih =>
    intro db h
    show List.foldl processUnit (processUnit db v) rest = db
    rw [h v (List.mem_cons_self _ _)]
    exact ih db fun u hu => h u (List.mem_cons_of_mem _ hu)

/-- C4: running ingestion twice over the same unchanged catalog is a no-op
the second time (same store, hence the same provision count, and no
duplicated records); a unit whose (source, chapter) already has an ingestion
record is skipped; and when a bulk insert fails mid-batch the unit's work is
fully undone — no provisions, no ingestion record — leaving it eligible for
retry. -/
theorem ingestion_idempotent :
    (∀ (db : Db) (units : List IngestUnit),
        ingestRun (ingestRun db units) units = ingestRun db units) ∧
    (∀ (db : Db) (u : IngestUnit),
        isIngested db u.source u.chapter = true → processUnit db u = db) ∧
    (∀ (db : Db) (u : IngestUnit) (items : List Item),
        u.fetched = some items →
        (∃ it ∈ items, it.source = none ∨ it.content = none) →
        processUnit db u = db) := by
  refine ⟨?_, fun db u h => processUnit_of_ingested db u h, ?_⟩
  · intro db units
    exact ingestRun_of_settled units (ingestRun db units) (ingestRun_settled units db)
  · intro db u items hf hbad
    by_cases hd : isIngested db u.source u.chapter = true
    · exact processUnit_of_ingested db u hd
    · by_cases hlen : 0 < items.length
      · obtain ⟨e, he⟩ := insertLoop_error_of_bad items db hbad
        simp [processUnit, hd, hf, hlen, he]
      · simp [processUnit, hd, hf, hlen]

/-- C4 witness: a two-unit catalog (one clean unit, one whose batch fails),
an already-recorded unit being skipped, and a failing unit left untouched. -/
theorem ingestion_idempotent_witness :
    ingestRun (ingestRun db0 [unitGood, unitBad]) [unitGood, unitBad] =
      ingestRun db0 [unitGood, unitBad] ∧
    processUnit dbLogged unitGood = dbLogged ∧
    processUnit db0 unitBad = db0 := by
  obtain ⟨h1, h2, h3⟩ := ingestion_idempotent
  exact ⟨h1 db0 [unitGood, unitBad], h2 dbLogged unitGood (by decide),
    h3 db0 unitBad [itemGood, itemBad] rfl ⟨itemBad, by decide, Or.inl rfl⟩⟩
